import Mathlib

/-!
Shallow embedding of the trace ingestion and replay engine of vutrace
(src/vutrace.cpp) together with proofs about its navigation and parsing
algorithms.  Machine integers are modelled as `Nat`; fixed-size C arrays are
modelled as functions out of `Nat`; the byte stream of a trace file is a
`List Nat`; fatal errors (`exit(1)`) are modelled with `Except`.
-/

namespace VuTrace

/-- Data-memory size of the traced co-processor, in bytes.  Modelled from the
spec: the constant `VU1_MEMSIZE` is declared in `pcsx2defs.h`, which is not
part of `src/`; the spec fixes the data-memory image at 16 KiB. -/
def VU1_MEMSIZE : Nat := 16384

/-- Instruction-memory size, in bytes.  Modelled from the spec: the constant
`VU1_PROGSIZE` is declared in `pcsx2defs.h`, which is not part of `src/`; the
spec fixes the instruction-memory image at 16 KiB. -/
def VU1_PROGSIZE : Nat := 16384

/-- Size in bytes of one instruction pair (vutrace.cpp line 42). -/
def INSN_PAIR_SIZE : Nat := 8

/-- Index of the program counter inside the integer register file (`VI[TPC]`).
Modelled from the spec: the index is declared in `pcsx2defs.h`, which is not
part of `src/`; the spec only requires one fixed well-known index below 32. -/
def TPC : Nat := 26

/-- Register file of the co-processor at one instant.  Modelled from the spec:
the concrete struct `VURegs` lives in `pcsx2defs.h`, which is not part of
`src/`.  Per the spec there are 32 vector registers of four 32-bit lanes
(`VF i lane`), 32 integer registers with 32-bit storage (`VI i`), one
accumulator of four 32-bit lanes (`ACC lane`) and two 32-bit scalar registers
`q` and `p`. -/
structure VURegs where
  VF : Nat → Nat → Nat
  VI : Nat → Nat
  ACC : Nat → Nat
  q : Nat
  p : Nat

/-- One machine-state snapshot (vutrace.cpp lines 52-61).  The two memory
images are byte-valued functions; the four access-record fields mirror
`read_addr`/`read_size`/`write_addr`/`write_size`. -/
structure Snapshot where
  registers : VURegs
  memory : Nat → Nat
  program : Nat → Nat
  read_addr : Nat
  read_size : Nat
  write_addr : Nat
  write_size : Nat

/-- Zero-initialised register file (`VURegs registers = {}` in the `Snapshot`
struct, vutrace.cpp line 54). -/
def initRegs : VURegs := ⟨fun _ _ => 0, fun _ => 0, fun _ => 0, 0, 0⟩

/-- The freshly constructed "current" snapshot (`Snapshot current;`,
vutrace.cpp line 781).  The C++ leaves `memory` and `program` indeterminate;
they are modelled as all-zero here, and no settled claim depends on the
initial content of either image. -/
def initSnapshot : Snapshot := ⟨initRegs, fun _ => 0, fun _ => 0, 0, 0, 0, 0⟩

/-- Per-instruction-slot statistics record (vutrace.cpp lines 63-70).  The two
`std::map<u32, size_t>` members are modelled as total count functions with
default value 0, which is exactly the observable behaviour of `operator[]`
followed by `++`.  The `disassembly` string is produced by the external
disassembler collaborator and is out of scope. -/
structure Instruction where
  is_executed : Bool
  branch_to_times : Nat → Nat
  branch_from_times : Nat → Nat
  times_executed : Nat

/-- A default-constructed instruction slot. -/
def initInstruction : Instruction := ⟨false, fun _ => 0, fun _ => 0, 0⟩

/-- The instruction-slot table right after
`app.instructions.resize(VU1_PROGSIZE / INSN_PAIR_SIZE)` (vutrace.cpp
line 755): every slot is default-constructed. -/
def initTable : Nat → Instruction := fun _ => initInstruction

/-! ## Navigator: seek by memory access (vutrace.cpp lines 712-729) -/

/-- The match test of `walk_until_mem_access` (vutrace.cpp lines 719-720): a
snapshot matches the target `address` when its read (or write) access record
has non-zero size and the access address lies in the same 16-byte block as
`address`. -/
def memAccessMatch (snap : Snapshot) (address : Nat) : Bool :=
  decide ((0 < snap.read_size ∧ snap.read_addr / 16 = address / 16) ∨
    (0 < snap.write_size ∧ snap.write_addr / 16 = address / 16))

/-- Loop body of `walk_until_mem_access` (vutrace.cpp lines 715-728).  Each
iteration advances `idx` to `(idx + 1) % snapshots.length` and tests that
snapshot; on a match at index `j` the cursor becomes `j - 1` when `1 ≤ j` and
is otherwise left at its original value `cursor` (the C++ mutates
`app.current_snapshot` only under `snapshot_index >= 1`).  The `fuel`
argument encodes the do-while guard `snapshot_index != app.current_snapshot`:
starting from `idx = cursor` with `fuel = snapshots.length`, the fuel runs out
exactly when the scan has wrapped all the way around back to `cursor` (the
guard's exit point), and the cursor is then returned unchanged.  For an empty
store the C++ computes `% 0` (undefined behaviour); the model simply returns
`cursor` because the fuel is 0. -/
def walkMemAux (snapshots : List Snapshot) (cursor address : Nat) :
    Nat → Nat → Nat
  | _, 0 => cursor
  | idx, fuel + 1 =>
    let j := (idx + 1) % snapshots.length
    if memAccessMatch (snapshots.getD j initSnapshot) address then
      if 1 ≤ j then j - 1 else cursor
    else
      walkMemAux snapshots cursor address j fuel

/-- `walk_until_mem_access` (vutrace.cpp lines 712-729), returning the new
value of `app.current_snapshot`.  The C++ function returns `void`; its only
observable effect on the session is the cursor. -/
def walk_until_mem_access (snapshots : List Snapshot) (cursor address : Nat) :
    Nat :=
  walkMemAux snapshots cursor address cursor snapshots.length

/-- The cyclic sequence of indices inspected by `walk_until_mem_access`
starting from `cursor`: `(cursor + 1) % n, (cursor + 2) % n, ...` for one full
wrap, and the first of them whose snapshot matches `address`. -/
def firstMemMatch (snapshots : List Snapshot) (cursor address : Nat) :
    Option Nat :=
  ((List.range snapshots.length).map
      (fun i => (cursor + 1 + i) % snapshots.length)).find?
    (fun j => memAccessMatch (snapshots.getD j initSnapshot) address)

/-! ## Navigator: seek by equal PC (vutrace.cpp lines 698-710) -/

/-- Loop of `walk_until_pc_equal` (vutrace.cpp lines 700-706).  The current
index is a `Nat`; `step` is the C++ `int` parameter.  The guard mirrors
`-step > (int)snapshot || snapshot + step >= app.snapshots.size()` using exact
integer arithmetic, and a `none` result models returning `false` with the
cursor untouched while `some j` models returning `true` after the cursor moved
to `j`.  The fuel bounds the number of iterations; `walk_until_pc_equal`
passes `pcs.length + 1`, which is enough for the only two step values the
program uses (`+1` and `-1`, vutrace.cpp lines 168-171). -/
def walkPCAux (pcs : List Nat) (target : Nat) (step : Int) :
    Nat → Nat → Option Nat
  | _, 0 => none
  | snapshot, fuel + 1 =>
    if -step > (snapshot : Int) ∨ (snapshot : Int) + step ≥ (pcs.length : Int)
    then none
    else
      let s := ((snapshot : Int) + step).toNat
      if pcs.getD s 0 = target then some s
      else walkPCAux pcs target step s fuel

/-- `walk_until_pc_equal` (vutrace.cpp lines 698-710) over the list of the
snapshots' program counters.  `some j` means the function returned `true` and
moved the cursor to `j`; `none` means it returned `false` leaving the cursor
unchanged. -/
def walk_until_pc_equal (pcs : List Nat) (cursor target : Nat) (step : Int) :
    Option Nat :=
  walkPCAux pcs target step cursor (pcs.length + 1)

/-! ## Navigator: byte-pattern search (vutrace.cpp lines 373-386) -/

/-- The `memcmp(value_raw.data(), &current.memory[i], value_raw.size()) == 0`
test (vutrace.cpp line 376): the pattern equals the memory bytes starting at
address `a`. -/
def bytesMatch (memory : Nat → Nat) (pattern : List Nat) (a : Nat) : Bool :=
  (List.range pattern.length).all (fun k => memory (a + k) == pattern.getD k 0)

/-- The find-bytes search loop of `memory_window` (vutrace.cpp lines 373-386):
scan window start addresses `i = 0, 1, ...` while
`i < VU1_MEMSIZE - value_raw.size()` and stop at the first `i` where the
pattern matches; `none` models "No match found".  (For an empty search range
the loop body never runs, matching the C++ when the pattern is non-empty and
no bigger than the memory; patterns larger than the memory make the C++
`size_t` bound wrap and read out of bounds, a case no settled claim
touches.) -/
def find_bytes (memory : Nat → Nat) (pattern : List Nat) : Option Nat :=
  (List.range (VU1_MEMSIZE - pattern.length)).find?
    (fun i => bytesMatch memory pattern i)

/-! ## Binary packet reader and state accumulator (vutrace.cpp lines 731-908) -/

/-- Little-endian value of a list of bytes (how `fread` into a `u16`/`u32`/
`u128` variable is observed on the little-endian targets the program is built
for). -/
def leBytes (bs : List Nat) : Nat :=
  bs.foldr (fun b acc => b + 256 * acc) 0

/-- Byte of a payload at offset `i` (0 beyond the end, which never happens for
the offsets the parser uses because every read is length-checked first). -/
def byteAt (bs : List Nat) (i : Nat) : Nat := bs.getD i 0

/-- Little-endian 32-bit word of a payload at byte offset `off`. -/
def leWordAt (bs : List Nat) (off : Nat) : Nat :=
  leBytes [byteAt bs off, byteAt bs (off + 1), byteAt bs (off + 2),
    byteAt bs (off + 3)]

/-- The fatal errors of `parse_trace`: every one of them is `exit(1)` in the
C++ (vutrace.cpp lines 758-761, 776-779, 786-789, 872-875, 885-888,
891-895). -/
inductive ParseError where
  | eof
  | versionTooNew
  | badPC
  | badRegisterIndex
  | badMemoryAddress
  | badPacketType (b : Nat)
deriving DecidableEq

/-- In-place mutation of one slot of the instruction table through a
reference (`Instruction &instruction = app.instructions[...]` in the C++):
apply `f` to slot `slot` and leave every other slot alone. -/
def updSlot (tbl : Nat → Instruction) (slot : Nat)
    (f : Instruction → Instruction) : Nat → Instruction :=
  fun s => if s = slot then f (tbl slot) else tbl s

/-- `std::map` access `m[key]++`: the count at `key` grows by one and every
other count is untouched. -/
def bumpCount (m : Nat → Nat) (key : Nat) : Nat → Nat :=
  fun t => if t = key then m key + 1 else m t

/-- `instruction.is_executed = true` (vutrace.cpp line 794). -/
def markExecuted (i : Instruction) : Instruction := { i with is_executed := true }

/-- `branch_to_times[pc]++` on one instruction slot (vutrace.cpp line 801). -/
def bumpTo (pc : Nat) (i : Instruction) : Instruction :=
  { i with branch_to_times := bumpCount i.branch_to_times pc }

/-- `branch_from_times[last_pc]++` on one instruction slot (vutrace.cpp
line 802). -/
def bumpFrom (last_pc : Nat) (i : Instruction) : Instruction :=
  { i with branch_from_times := bumpCount i.branch_from_times last_pc }

/-- `instruction.times_executed++` (vutrace.cpp line 805). -/
def bumpTimes (i : Instruction) : Instruction :=
  { i with times_executed := i.times_executed + 1 }

/-- The flow-analysis part of pushing a snapshot (vutrace.cpp lines 796-804):
once the store (`snapshots2`, already including the new snapshot) holds at
least two snapshots, read the previous snapshot's PC (`last_pc`, inlined
below) and, unless it falls straight through to the new PC, record the
branch edge in both directions: first `branch_to_times[pc]++` on the
previous PC's slot, then `branch_from_times[last_pc]++` on the new PC's
slot. -/
def flowUpdate (pc : Nat) (snapshots2 : List Snapshot)
    (tbl1 : Nat → Instruction) : Nat → Instruction :=
  if 2 ≤ snapshots2.length then
    if (snapshots2.getD (snapshots2.length - 2) initSnapshot).registers.VI TPC
        + INSN_PAIR_SIZE ≠ pc then
      updSlot
        (updSlot tbl1
          ((snapshots2.getD (snapshots2.length - 2)
            initSnapshot).registers.VI TPC / INSN_PAIR_SIZE)
          (bumpTo pc))
        (pc / INSN_PAIR_SIZE)
        (bumpFrom
          ((snapshots2.getD (snapshots2.length - 2)
            initSnapshot).registers.VI TPC))
    else tbl1
  else tbl1

/-- Processing of a `VUTRACE_PUSHSNAPSHOT` packet (vutrace.cpp lines 785-812):
validate the current program counter, append a copy of `current` to the
store, update the instruction-slot table (executed flag, branch edges when the
previous snapshot's PC does not fall through, execution count), then clear
both access records on `current`.  Returns the new store, table and current
state. -/
def applyPush (current : Snapshot) (snapshots : List Snapshot)
    (tbl : Nat → Instruction) :
    Except ParseError (List Snapshot × (Nat → Instruction) × Snapshot) :=
  let pc := current.registers.VI TPC
  if VU1_PROGSIZE ≤ pc ∨ pc % INSN_PAIR_SIZE ≠ 0 then .error .badPC
  else
    let snapshots2 := snapshots ++ [current]
    let tbl1 := updSlot tbl (pc / INSN_PAIR_SIZE) markExecuted
    let tbl2 := flowUpdate pc snapshots2 tbl1
    let tbl3 := updSlot tbl2 (pc / INSN_PAIR_SIZE) bumpTimes
    .ok (snapshots2, tbl3,
      { current with
        read_addr := 0
        read_size := 0
        write_addr := 0
        write_size := 0 })

/-- Processing of a `VUTRACE_PATCHREGISTER` packet (vutrace.cpp lines
857-877) on the decoded 1-byte register `index` and 128-bit raw value `data`.
Modelled from the spec for the register-file layout (which lives in
`pcsx2defs.h`, not under `src/`): each `memcpy` of 16 bytes lands on exactly
one 16-byte register slot — all four lanes of a vector register or of the
accumulator, or the 32-bit storage (plus inert padding) of one integer
register or of `q` or `p` — so an integer-register, `q` or `p` patch takes the
low 32 bits of `data` and touches nothing else. -/
def applyPatchRegister (current : Snapshot) (index data : Nat) :
    Except ParseError Snapshot :=
  if index < 32 then
    .ok { current with registers := { current.registers with
      VF := fun i l => if i = index then data / 2 ^ (32 * l) % 2 ^ 32
        else current.registers.VF i l } }
  else if index < 64 then
    .ok { current with registers := { current.registers with
      VI := fun i => if i = index - 32 then data % 2 ^ 32
        else current.registers.VI i } }
  else if index = 64 then
    .ok { current with registers := { current.registers with
      ACC := fun l => data / 2 ^ (32 * l) % 2 ^ 32 } }
  else if index = 65 then
    .ok { current with registers :=
      { current.registers with q := data % 2 ^ 32 } }
  else if index = 66 then
    .ok { current with registers :=
      { current.registers with p := data % 2 ^ 32 } }
  else .error .badRegisterIndex

/-- Processing of a `VUTRACE_PATCHMEMORY` packet (vutrace.cpp lines 878-890)
on the decoded 16-bit `address` and 32-bit `data`:
`if(address < VU1_MEMSIZE - 4)` copy the four little-endian bytes of `data`
into the memory image at `address`, otherwise `exit(1)`. -/
def applyPatchMemory (current : Snapshot) (address data : Nat) :
    Except ParseError Snapshot :=
  if address < VU1_MEMSIZE - 4 then
    .ok { current with memory := fun a =>
      if address ≤ a ∧ a < address + 4 then data / 2 ^ (8 * (a - address)) % 256
      else current.memory a }
  else .error .badMemoryAddress

/-- Size in bytes of the legacy `old_pcsx2_structs_v1::VURegs` payload of a
version-1 `SetRegisters` packet.  Modelled from the spec: the struct is
declared in `pcsx2defs.h`, which is not under `src/`; the spec fixes only that
it is a fixed-size structure smaller than the current layout.  No settled
claim depends on this value. -/
def oldRegsSizeV1 : Nat := 784

/-- Size in bytes of the legacy `old_pcsx2_structs_v2::VURegs` payload of a
version-2 `SetRegisters` packet.  Modelled from the spec, like
`oldRegsSizeV1`; no settled claim depends on this value. -/
def oldRegsSizeV2 : Nat := 912

/-- Payload size of a `SetRegisters` packet for each format version
(vutrace.cpp lines 813-836).  Version 3 reads the five current register
fields back to back: 32 vector registers of 16 bytes, 32 integer-register
slots of 16 bytes, the 16-byte accumulator and the 16-byte `q` and `p` slots,
1072 bytes in all (slot sizes modelled from the spec, see
`applyPatchRegister`). -/
def regsPayloadSize (version : Nat) : Nat :=
  if version = 1 then oldRegsSizeV1
  else if version = 2 then oldRegsSizeV2
  else 1072

/-- Decoding of a `SetRegisters` payload into the current register-file shape
(vutrace.cpp lines 813-836).  Modelled from the spec for the byte layout
(declared in `pcsx2defs.h`, not under `src/`): vector registers first, one
16-byte slot per register with four little-endian 32-bit lanes, then the 32
integer-register slots (value in the low 4 bytes of each 16-byte slot), then
the accumulator, `q` and `p` slots; legacy versions map their fields into the
same shape field by field.  No settled claim inspects the decoded values. -/
def decodeRegs (payload : List Nat) : VURegs :=
  { VF := fun i l => leWordAt payload (16 * i + 4 * l)
    VI := fun i => leWordAt payload (512 + 16 * i)
    ACC := fun l => leWordAt payload (1024 + 4 * l)
    q := leWordAt payload 1040
    p := leWordAt payload 1056 }

/-- The packet loop of `parse_trace` (vutrace.cpp lines 782-897): read one
discriminant byte at a time until end of stream and dispatch on it.  Byte
values: 'P' = 80, 'R' = 82, 'M' = 77, 'I' = 73, 'L' = 76, 'S' = 83,
'r' = 114, 'm' = 109.  Every payload read checks for a premature end of
stream (`check_eof`) and any unknown discriminant is fatal. -/
def parseLoop (version : Nat) (input : List Nat) (current : Snapshot)
    (snapshots : List Snapshot) (tbl : Nat → Instruction) :
    Except ParseError (List Snapshot × (Nat → Instruction)) :=
  match input with
  | [] => .ok (snapshots, tbl)
  | b :: rest =>
    if b = 80 then
      match applyPush current snapshots tbl with
      | .error e => .error e
      | .ok (snapshots2, tbl2, current2) =>
        parseLoop version rest current2 snapshots2 tbl2
    else if b = 82 then
      if regsPayloadSize version ≤ rest.length then
        parseLoop version (rest.drop (regsPayloadSize version))
          { current with
            registers := decodeRegs (rest.take (regsPayloadSize version)) }
          snapshots tbl
      else .error .eof
    else if b = 77 then
      if VU1_MEMSIZE ≤ rest.length then
        parseLoop version (rest.drop VU1_MEMSIZE)
          { current with memory := fun a => byteAt (rest.take VU1_MEMSIZE) a }
          snapshots tbl
      else .error .eof
    else if b = 73 then
      if VU1_PROGSIZE ≤ rest.length then
        parseLoop version (rest.drop VU1_PROGSIZE)
          { current with
            program := fun a => byteAt (rest.take VU1_PROGSIZE) a }
          snapshots tbl
      else .error .eof
    else if b = 76 then
      if 8 ≤ rest.length then
        parseLoop version (rest.drop 8)
          { current with
            read_addr := leWordAt (rest.take 8) 0
            read_size := leWordAt (rest.take 8) 4 }
          snapshots tbl
      else .error .eof
    else if b = 83 then
      if 8 ≤ rest.length then
        parseLoop version (rest.drop 8)
          { current with
            write_addr := leWordAt (rest.take 8) 0
            write_size := leWordAt (rest.take 8) 4 }
          snapshots tbl
      else .error .eof
    else if b = 114 then
      if 17 ≤ rest.length then
        match applyPatchRegister current (byteAt rest 0)
          (leBytes ((rest.take 17).drop 1)) with
        | .error e => .error e
        | .ok current2 => parseLoop version (rest.drop 17) current2 snapshots tbl
      else .error .eof
    else if b = 109 then
      if 6 ≤ rest.length then
        match applyPatchMemory current (byteAt rest 0 + 256 * byteAt rest 1)
          (leWordAt (rest.take 6) 2) with
        | .error e => .error e
        | .ok current2 => parseLoop version (rest.drop 6) current2 snapshots tbl
      else .error .eof
    else .error (.badPacketType b)
termination_by input.length
decreasing_by all_goals (try simp [List.length_drop]); all_goals omega

/-- The byte values of the magic tag `"VUTR"` (vutrace.cpp line 769). -/
def vutrMagic : List Nat := [86, 85, 84, 82]

/-- `parse_trace` (vutrace.cpp lines 743-908) on the raw byte stream of the
trace file: read the 4-byte magic (fatal EOF on a shorter stream), read the
4-byte little-endian version when the magic is `"VUTR"` and otherwise rewind
and treat the whole stream as version-1 packet data, reject versions above 3,
then run the packet loop from the freshly constructed current state, empty
store and default instruction table.  The final disassembly pass over the
instruction table only fills the out-of-scope `disassembly` strings and is
not modelled. -/
def parse_trace (input : List Nat) :
    Except ParseError (List Snapshot × (Nat → Instruction)) :=
  if 4 ≤ input.length then
    if input.take 4 = vutrMagic then
      if 4 ≤ (input.drop 4).length then
        if 3 < leBytes ((input.drop 4).take 4) then .error .versionTooNew
        else parseLoop (leBytes ((input.drop 4).take 4)) (input.drop 8)
          initSnapshot [] initTable
      else .error .eof
    else parseLoop 1 input initSnapshot [] initTable
  else .error .eof

/-- Number of `PushSnapshot` packets in a packet-data stream, walking the
stream with exactly the framing of `parseLoop` but ignoring all state;
`none` when the stream does not tokenize into packets. -/
def countPush (version : Nat) (input : List Nat) : Option Nat :=
  match input with
  | [] => some 0
  | b :: rest =>
    if b = 80 then (countPush version rest).map (fun n => n + 1)
    else if b = 82 then
      if regsPayloadSize version ≤ rest.length then
        countPush version (rest.drop (regsPayloadSize version))
      else none
    else if b = 77 then
      if VU1_MEMSIZE ≤ rest.length then countPush version (rest.drop VU1_MEMSIZE)
      else none
    else if b = 73 then
      if VU1_PROGSIZE ≤ rest.length then
        countPush version (rest.drop VU1_PROGSIZE)
      else none
    else if b = 76 then
      if 8 ≤ rest.length then countPush version (rest.drop 8) else none
    else if b = 83 then
      if 8 ≤ rest.length then countPush version (rest.drop 8) else none
    else if b = 114 then
      if 17 ≤ rest.length then countPush version (rest.drop 17) else none
    else if b = 109 then
      if 6 ≤ rest.length then countPush version (rest.drop 6) else none
    else none
termination_by input.length
decreasing_by all_goals (try simp [List.length_drop]); all_goals omega

/-- Number of `PushSnapshot` packets of a whole trace file, applying the same
header handling as `parse_trace` and then `countPush` to the packet data. -/
def pushCountTrace (input : List Nat) : Option Nat :=
  if 4 ≤ input.length then
    if input.take 4 = vutrMagic then
      if 4 ≤ (input.drop 4).length then
        if 3 < leBytes ((input.drop 4).take 4) then none
        else countPush (leBytes ((input.drop 4).take 4)) (input.drop 8)
      else none
    else countPush 1 input
  else none

/-! ## Concrete inputs used by counterexamples and witnesses -/

/-- A snapshot whose read access record covers address 0 with size 1. -/
def readAtZeroSnap : Snapshot := { initSnapshot with read_size := 1 }

/-- A snapshot whose program counter register holds `pc`. -/
def snapAtPC (pc : Nat) : Snapshot :=
  { initSnapshot with
    registers := { initRegs with VI := fun i => if i = TPC then pc else 0 } }

/-- A memory image that is zero everywhere except for a single 1 in its very
last byte. -/
def cexMemory : Nat → Nat := fun a => if a = 16383 then 1 else 0

/-! ## Theorems -/

/-- Unrolling `walkMemAux`: running the loop from index `idx` with some
amount of fuel returns the cursor for the first matching index of the cyclic
index sequence `(idx + 1 + i) % n` for `i < fuel`, and the unchanged cursor
when none of them matches. -/
theorem walkMemAux_eq_find (snapshots : List Snapshot) (cursor address : Nat) :
    ∀ (fuel idx : Nat),
      walkMemAux snapshots cursor address idx fuel =
        (match ((List.range fuel).map
            (fun i => (idx + 1 + i) % snapshots.length)).find?
            (fun j => memAccessMatch (snapshots.getD j initSnapshot) address)
          with
        | some j => if 1 ≤ j then j - 1 else cursor
        | none => cursor) := by
  intro fuel
  induction fuel with
  | zero => intro idx; simp [walkMemAux]
  | succ fuel ih =>
    intro idx
    rw [List.range_succ_eq_map, List.map_cons, List.map_map]
    by_cases h : memAccessMatch
        (snapshots.getD ((idx + 1) % snapshots.length) initSnapshot) address
    · rw [List.find?_cons_of_pos]
      · simp only [walkMemAux, h, if_true, Nat.add_zero]
      · simpa using h
    · rw [List.find?_cons_of_neg]
      · have hmaps : List.map
            ((fun i => (idx + 1 + i) % snapshots.length) ∘ Nat.succ)
            (List.range fuel) =
            List.map
              (fun i => ((idx + 1) % snapshots.length + 1 + i) %
                snapshots.length)
              (List.range fuel) := by
          apply List.map_congr_left
          intro i _
          show (idx + 1 + (i + 1)) % snapshots.length = _
          have h1 : (idx + 1) % snapshots.length + 1 + i =
              (idx + 1) % snapshots.length + (1 + i) := by omega
          have h2 : idx + 1 + (i + 1) = idx + 1 + (1 + i) := by omega
          rw [h1, h2, Nat.mod_add_mod]
        rw [hmaps, ← ih ((idx + 1) % snapshots.length)]
        simp only [walkMemAux]
        rw [if_neg h]
      · simpa using h


/-- C1, counterexample.  On the store `[readAtZeroSnap, initSnapshot]` with
the cursor at index 1 and target address 0, the cyclic scan's first match is
at index `j = 0` (the claim therefore demands the cursor move to
`max(j - 1, 0) = 0` with success), but `walk_until_mem_access` leaves the
cursor at 1: the code moves the cursor only when the match index is at
least 1. -/
theorem walk_mem_match_at_zero_cex :
    firstMemMatch [readAtZeroSnap, initSnapshot] 1 0 = some 0 ∧
    walk_until_mem_access [readAtZeroSnap, initSnapshot] 1 0 = 1 := by
  exact ⟨rfl, rfl⟩

/-- C1, amended.  Seek-by-memory-access scans indices cyclically starting at
`cursor + 1`; at the first matching index `j` it sets the cursor to `j - 1`
when `j ≥ 1` but leaves the cursor unchanged when `j = 0`, and if the scan
wraps fully around without a match the cursor is unchanged. -/
theorem walk_mem_cyclic_seek_amended (snapshots : List Snapshot)
    (cursor address : Nat) :
    walk_until_mem_access snapshots cursor address =
      (match firstMemMatch snapshots cursor address with
      | some j => if 1 ≤ j then j - 1 else cursor
      | none => cursor) := by
  rw [walk_until_mem_access, walkMemAux_eq_find]
  rfl

/-- Running the scan with any fuel of at least `snapshots.length` finds the
same first match as one full wrap: the visited indices repeat with period
`snapshots.length`. -/
theorem firstMemMatch_fuel_stable (snapshots : List Snapshot)
    (cursor address : Nat) (hn : 0 < snapshots.length) :
    ∀ fuel, snapshots.length ≤ fuel →
      ((List.range fuel).map
          (fun i => (cursor + 1 + i) % snapshots.length)).find?
        (fun j => memAccessMatch (snapshots.getD j initSnapshot) address) =
      firstMemMatch snapshots cursor address := by
  intro fuel
  induction fuel with
  | zero => intro hf; exact absurd hf (by omega)
  | succ fuel ih =>
    intro hf
    rcases Nat.lt_or_ge fuel snapshots.length with hlt | hge
    · have hlen : snapshots.length = fuel + 1 := by omega
      rw [firstMemMatch, hlen]
    · have hstep := ih hge
      rw [List.range_succ, List.map_append, List.find?_append, hstep]
      cases hfind : firstMemMatch snapshots cursor address with
      | some v => rfl
      | none =>
        unfold firstMemMatch at hfind
        have hall := List.find?_eq_none.mp hfind
        have hmem : (cursor + 1 + fuel % snapshots.length) % snapshots.length ∈
            (List.range snapshots.length).map
              (fun i => (cursor + 1 + i) % snapshots.length) :=
          List.mem_map.mpr ⟨fuel % snapshots.length,
            List.mem_range.mpr (Nat.mod_lt fuel hn), rfl⟩
        have hpf := hall _ hmem
        simp only [List.map_cons, List.map_nil]
        rw [List.find?_cons_of_neg]
        · rfl
        · rw [Nat.add_mod_mod] at hpf
          exact hpf

/-- C10.  Under the precondition that the snapshot store is non-empty (and
the cursor in bounds, which the session maintains), seek-by-memory-access
returns an in-bounds cursor, every index produced by its cyclic step is in
bounds, and running the loop with any iteration budget of at least
`store_size` yields the same result as the `store_size`-step run: the first
full wrap decides the outcome. -/
theorem walk_mem_safety (snapshots : List Snapshot) (cursor address : Nat)
    (hn : 0 < snapshots.length) (hcur : cursor < snapshots.length) :
    walk_until_mem_access snapshots cursor address < snapshots.length ∧
    (∀ i, (cursor + 1 + i) % snapshots.length < snapshots.length) ∧
    (∀ fuel, snapshots.length ≤ fuel →
      walkMemAux snapshots cursor address cursor fuel =
      walk_until_mem_access snapshots cursor address) := by
  refine ⟨?_, fun i => Nat.mod_lt _ hn, fun fuel hf => ?_⟩
  · rw [walk_until_mem_access, walkMemAux_eq_find]
    cases hfind : ((List.range snapshots.length).map
        (fun i => (cursor + 1 + i) % snapshots.length)).find?
        (fun j => memAccessMatch (snapshots.getD j initSnapshot) address) with
    | some j =>
      have hjmem := List.mem_of_find?_eq_some hfind
      obtain ⟨i, _, hij⟩ := List.mem_map.mp hjmem
      have hj : j < snapshots.length := hij ▸ Nat.mod_lt _ hn
      have hred : (match (some j : Option Nat) with
          | some j => if 1 ≤ j then j - 1 else cursor
          | none => cursor) = if 1 ≤ j then j - 1 else cursor := rfl
      rw [hred]
      by_cases h1 : 1 ≤ j
      · rw [if_pos h1]; omega
      · rw [if_neg h1]; exact hcur
    | none => exact hcur
  · rw [walkMemAux_eq_find, walk_until_mem_access, walkMemAux_eq_find,
      firstMemMatch_fuel_stable snapshots cursor address hn fuel hf]
    rfl

/-- C10, witness: on a one-snapshot store with the cursor at 0 the returned
cursor is in bounds. -/
theorem walk_mem_safety_witness :
    walk_until_mem_access [initSnapshot] 0 0 < [initSnapshot].length :=
  (walk_mem_safety [initSnapshot] 0 0 (by decide) (by decide)).1

/-- Unrolling `walkPCAux` with step `+1`: given enough fuel, the loop returns
the first index in the ascending window `cursor + 1 .. pcs.length - 1` whose
PC equals the target. -/
theorem walkPCAux_fwd (pcs : List Nat) (target : Nat) :
    ∀ (fuel snapshot : Nat), pcs.length ≤ snapshot + fuel →
      walkPCAux pcs target 1 snapshot fuel =
        (List.range' (snapshot + 1) (pcs.length - (snapshot + 1))).find?
          (fun j => decide (pcs.getD j 0 = target)) := by
  intro fuel
  induction fuel with
  | zero =>
    intro snapshot hf
    have h0 : pcs.length - (snapshot + 1) = 0 := by omega
    rw [h0]
    rfl
  | succ fuel ih =>
    intro snapshot hf
    rcases Nat.lt_or_ge (snapshot + 1) pcs.length with hlt | hge
    · have hguard : ¬(-(1 : Int) > (snapshot : Int) ∨
          (snapshot : Int) + 1 ≥ (pcs.length : Int)) := by omega
      simp only [walkPCAux]
      rw [if_neg hguard]
      have hs : ((snapshot : Int) + 1).toNat = snapshot + 1 := by omega
      rw [hs]
      have hcount : pcs.length - (snapshot + 1) =
          (pcs.length - (snapshot + 1 + 1)) + 1 := by omega
      rw [hcount, List.range'_succ]
      by_cases hp : pcs.getD (snapshot + 1) 0 = target
      · rw [if_pos hp, List.find?_cons_of_pos _ (by simpa using hp)]
      · rw [if_neg hp, List.find?_cons_of_neg _ (by simpa using hp),
          ih (snapshot + 1) (by omega)]
    · have hguard : -(1 : Int) > (snapshot : Int) ∨
          (snapshot : Int) + 1 ≥ (pcs.length : Int) := by omega
      simp only [walkPCAux]
      rw [if_pos hguard]
      have h0 : pcs.length - (snapshot + 1) = 0 := by omega
      rw [h0]
      rfl

/-- Unrolling `walkPCAux` with step `-1`: given enough fuel and an in-bounds
start, the loop returns the first index in the descending window
`cursor - 1 .. 0` whose PC equals the target. -/
theorem walkPCAux_bwd (pcs : List Nat) (target : Nat) :
    ∀ (fuel snapshot : Nat), snapshot < pcs.length → snapshot < fuel →
      walkPCAux pcs target (-1) snapshot fuel =
        ((List.range snapshot).reverse).find?
          (fun j => decide (pcs.getD j 0 = target)) := by
  intro fuel
  induction fuel with
  | zero => intro snapshot _ hf; exact absurd hf (by omega)
  | succ fuel ih =>
    intro snapshot hlen hf
    cases snapshot with
    | zero =>
      have hguard : -(-1 : Int) > ((0 : Nat) : Int) ∨
          ((0 : Nat) : Int) + (-1) ≥ (pcs.length : Int) := by omega
      simp only [walkPCAux]
      rw [if_pos hguard]
      rfl
    | succ m =>
      have hguard : ¬(-(-1 : Int) > ((m + 1 : Nat) : Int) ∨
          ((m + 1 : Nat) : Int) + (-1) ≥ (pcs.length : Int)) := by omega
      simp only [walkPCAux]
      rw [if_neg hguard]
      have hs : (((m + 1 : Nat) : Int) + (-1)).toNat = m := by omega
      rw [hs]
      rw [List.range_succ, List.reverse_append, List.reverse_singleton,
        List.singleton_append]
      by_cases hp : pcs.getD m 0 = target
      · rw [if_pos hp, List.find?_cons_of_pos _ (by simpa using hp)]
      · rw [if_neg hp, List.find?_cons_of_neg _ (by simpa using hp),
          ih m (by omega) (by omega)]

/-- The first match of `find?` over an ascending `range'` window is minimal:
every smaller index of the window fails the predicate. -/
theorem find?_range'_min (p : Nat → Bool) :
    ∀ (n s r : Nat), (List.range' s n).find? p = some r →
      ∀ b, s ≤ b → b < r → p b = false := by
  intro n
  induction n with
  | zero => intro s r h; simp at h
  | succ n ih =>
    intro s r h b hsb hbr
    rw [List.range'_succ] at h
    by_cases hp : p s
    · rw [List.find?_cons_of_pos _ hp] at h
      have hsr : s = r := by simpa using h
      exact absurd hbr (by omega)
    · rw [List.find?_cons_of_neg _ hp] at h
      rcases Nat.eq_or_lt_of_le hsb with rfl | hlt
      · simpa using hp
      · exact ih (s + 1) r h b hlt hbr

/-- The first match of `find?` over a descending `(range m).reverse` window
is the largest matching index: every larger index below `m` fails the
predicate. -/
theorem find?_rev_range_min (p : Nat → Bool) :
    ∀ (m r : Nat), ((List.range m).reverse).find? p = some r →
      r < m ∧ ∀ b, r < b → b < m → p b = false := by
  intro m
  induction m with
  | zero => intro r h; simp at h
  | succ m ih =>
    intro r h
    rw [List.range_succ, List.reverse_append, List.reverse_singleton,
      List.singleton_append] at h
    by_cases hp : p m
    · rw [List.find?_cons_of_pos _ hp] at h
      have hmr : m = r := by simpa using h
      exact ⟨by omega, fun b hrb hbm => absurd hbm (by omega)⟩
    · rw [List.find?_cons_of_neg _ hp] at h
      obtain ⟨hrm, hmin⟩ := ih r h
      refine ⟨by omega, fun b hrb hbm => ?_⟩
      rcases Nat.lt_succ_iff_lt_or_eq.mp hbm with hb | rfl
      · exact hmin b hrb hb
      · simpa using hp

/-- C8.  From an in-bounds cursor `k`, seek-by-equal-PC with step `+1` either
moves to the smallest index `j > k` with `pc[j] = target` (examining exactly
the indices `k + 1 .. store_size - 1`) or reports no match leaving the cursor
unchanged, and with step `-1` it either moves to the largest `j < k` with
`pc[j] = target` (examining `k - 1` down to `0`) or reports no match. -/
theorem walk_pc_seek_correct (pcs : List Nat) (cursor target : Nat)
    (hcur : cursor < pcs.length) :
    (∀ j, walk_until_pc_equal pcs cursor target 1 = some j →
      cursor < j ∧ j < pcs.length ∧ pcs.getD j 0 = target ∧
      ∀ i, cursor < i → i < j → pcs.getD i 0 ≠ target) ∧
    (walk_until_pc_equal pcs cursor target 1 = none →
      ∀ i, cursor < i → i < pcs.length → pcs.getD i 0 ≠ target) ∧
    (∀ j, walk_until_pc_equal pcs cursor target (-1) = some j →
      j < cursor ∧ pcs.getD j 0 = target ∧
      ∀ i, j < i → i < cursor → pcs.getD i 0 ≠ target) ∧
    (walk_until_pc_equal pcs cursor target (-1) = none →
      ∀ i, i < cursor → pcs.getD i 0 ≠ target) := by
  have hfwd : walk_until_pc_equal pcs cursor target 1 =
      (List.range' (cursor + 1) (pcs.length - (cursor + 1))).find?
        (fun j => decide (pcs.getD j 0 = target)) :=
    walkPCAux_fwd pcs target (pcs.length + 1) cursor (by omega)
  have hbwd : walk_until_pc_equal pcs cursor target (-1) =
      ((List.range cursor).reverse).find?
        (fun j => decide (pcs.getD j 0 = target)) :=
    walkPCAux_bwd pcs target (pcs.length + 1) cursor hcur (by omega)
  refine ⟨fun j h => ?_, fun h i hci hil => ?_, fun j h => ?_,
    fun h i hic => ?_⟩
  · rw [hfwd] at h
    have hpj : pcs.getD j 0 = target := by
      have hpt := List.find?_some h
      simpa using hpt
    have hjmem := List.mem_of_find?_eq_some h
    rw [List.mem_range'_1] at hjmem
    refine ⟨by omega, by omega, hpj, fun i hci hij => ?_⟩
    exact of_decide_eq_false (find?_range'_min _ _ _ _ h i (by omega) hij)
  · rw [hfwd] at h
    have hmem : i ∈ List.range' (cursor + 1) (pcs.length - (cursor + 1)) :=
      List.mem_range'_1.mpr ⟨by omega, by omega⟩
    simpa using List.find?_eq_none.mp h i hmem
  · rw [hbwd] at h
    have hpj : pcs.getD j 0 = target := by
      have hpt := List.find?_some h
      simpa using hpt
    obtain ⟨hjm, hmin⟩ := find?_rev_range_min _ cursor j h
    exact ⟨hjm, hpj, fun i hji hic => of_decide_eq_false (hmin i hji hic)⟩
  · rw [hbwd] at h
    have hmem : i ∈ (List.range cursor).reverse := by
      rw [List.mem_reverse, List.mem_range]; exact hic
    simpa using List.find?_eq_none.mp h i hmem

/-- C8, witness: on the PC list `[0, 8, 0]` with the cursor at 0 the forward
seek for PC 0 lands on index 2, the smallest later index holding PC 0. -/
theorem walk_pc_seek_correct_witness :
    0 < 2 ∧ 2 < [0, 8, 0].length ∧ [0, 8, 0].getD 2 0 = 0 ∧
      ∀ i, 0 < i → i < 2 → [0, 8, 0].getD i 0 ≠ 0 :=
  (walk_pc_seek_correct [0, 8, 0] 0 0 (by decide)).1 2 rfl

/-- C4, counterexample.  In the memory image `cexMemory` the pattern `[1]`
occurs (only) at address 16383, the window whose end coincides with the end
of memory (`a + n = memory_size`); the claim therefore demands a match at
some address `≤ 16383`, but the search reports no match: its loop stops at
`i < VU1_MEMSIZE - 1` and never tests the last window. -/
theorem find_bytes_last_window_cex :
    bytesMatch cexMemory [1] 16383 = true ∧
    16383 + [1].length = VU1_MEMSIZE ∧
    find_bytes cexMemory [1] = none := by
  refine ⟨rfl, rfl, ?_⟩
  unfold find_bytes
  rw [List.find?_eq_none]
  intro x hx
  rw [List.mem_range] at hx
  simp only [VU1_MEMSIZE, List.length_cons, List.length_nil] at hx
  intro hb
  have h0 := List.all_eq_true.mp hb 0 (by simp)
  simp only [cexMemory, Nat.add_zero, List.getD_cons_zero] at h0
  by_cases hx16 : x = 16383
  · omega
  · rw [if_neg hx16] at h0
    simp at h0

/-- C4, amended.  The search returns the lowest address `r` in the window
range `0 .. memory_size - n - 1` at which the pattern matches and reports no
match when no window in that range matches; consequently a pattern copied
verbatim from `memory[a .. a+n]` is found at an address `≤ a` whenever
`a + n < memory_size` — but a pattern whose only occurrence starts at
`memory_size - n` (so `a + n = memory_size`) is missed, because the loop
bound is strict. -/
theorem find_bytes_lowest_match_amended (memory : Nat → Nat)
    (pattern : List Nat) (a : Nat) :
    (∀ r, find_bytes memory pattern = some r →
      r < VU1_MEMSIZE - pattern.length ∧ bytesMatch memory pattern r = true ∧
      ∀ b, b < r → bytesMatch memory pattern b = false) ∧
    (find_bytes memory pattern = none →
      ∀ b, b < VU1_MEMSIZE - pattern.length →
        bytesMatch memory pattern b = false) ∧
    (a + pattern.length < VU1_MEMSIZE → bytesMatch memory pattern a = true →
      ∃ r, r ≤ a ∧ find_bytes memory pattern = some r) ∧
    (∀ n, bytesMatch memory ((List.range n).map (fun k => memory (a + k))) a
      = true) := by
  have hnone : find_bytes memory pattern = none →
      ∀ b, b < VU1_MEMSIZE - pattern.length →
        bytesMatch memory pattern b = false := by
    intro h b hb
    unfold find_bytes at h
    have hfail := List.find?_eq_none.mp h b (List.mem_range.mpr hb)
    have h2 : ¬ bytesMatch memory pattern b = true := by simpa using hfail
    rw [Bool.not_eq_true] at h2
    exact h2
  have hsome : ∀ r, find_bytes memory pattern = some r →
      r < VU1_MEMSIZE - pattern.length ∧ bytesMatch memory pattern r = true ∧
      ∀ b, b < r → bytesMatch memory pattern b = false := by
    intro r h
    unfold find_bytes at h
    have hr : r < VU1_MEMSIZE - pattern.length :=
      List.mem_range.mp (List.mem_of_find?_eq_some h)
    have hp : bytesMatch memory pattern r = true := by
      have hpt := List.find?_some h
      simpa using hpt
    refine ⟨hr, hp, fun b hb => ?_⟩
    rw [List.range_eq_range'] at h
    exact find?_range'_min _ _ _ _ h b (Nat.zero_le b) hb
  refine ⟨hsome, hnone, fun hlt hmatch => ?_, fun n => ?_⟩
  · cases hf : find_bytes memory pattern with
    | none =>
      have := hnone hf a (by omega)
      rw [this] at hmatch
      cases hmatch
    | some r =>
      refine ⟨r, ?_, rfl⟩
      by_contra hra
      have hfail := (hsome r hf).2.2 a (by omega)
      rw [hfail] at hmatch
      cases hmatch
  · unfold bytesMatch
    rw [List.all_eq_true]
    intro k hk
    rw [List.length_map, List.length_range, List.mem_range] at hk
    have hget : ((List.range n).map (fun j => memory (a + j))).getD k 0 =
        memory (a + k) := by
      rw [List.getD_eq_getElem?_getD, List.getElem?_map, List.getElem?_range hk]
      rfl
    simp only [hget]
    exact beq_self_eq_true _

/-- C4, witness: searching the all-zero image for `[0, 0]` matches at the
lowest window, address 0. -/
theorem find_bytes_lowest_match_amended_witness :
    0 < VU1_MEMSIZE - ([0, 0] : List Nat).length ∧
    bytesMatch (fun _ => 0) [0, 0] 0 = true ∧
    ∀ b, b < 0 → bytesMatch (fun _ => 0) [0, 0] b = false := by
  have hf : find_bytes (fun _ => 0) [0, 0] = some 0 := by
    unfold find_bytes
    have h1 : VU1_MEMSIZE - ([0, 0] : List Nat).length = 16381 + 1 := by
      norm_num [VU1_MEMSIZE]
    rw [h1, List.range_succ_eq_map, List.find?_cons_of_pos _ (by decide)]
  exact (find_bytes_lowest_match_amended (fun _ => 0) [0, 0] 0).1 0 hf

/-- C2, counterexample.  A headerless stream holding one PatchMemory packet
with the boundary address `memory_size - 4 = 16380` (bytes
`0xfc 0x3f` little-endian) aborts the whole load with the bad-address error,
although the claim says the boundary address is accepted. -/
theorem patch_memory_boundary_cex :
    252 + 256 * 63 = VU1_MEMSIZE - 4 ∧
    parse_trace [109, 252, 63, 0, 0, 0, 0] = .error .badMemoryAddress := by
  constructor
  · rfl
  · simp [parse_trace, vutrMagic, parseLoop, applyPatchMemory, byteAt,
      leWordAt, leBytes, VU1_MEMSIZE]

/-- C2, amended.  A PatchMemory packet with decoded address strictly below
`memory_size - 4` is applied — the four little-endian bytes of its 32-bit
value land at `address .. address + 3` and nothing else in the state
changes — while any address greater than or equal to `memory_size - 4`,
including the boundary `memory_size - 4` itself, is a fatal format error
that aborts the load. -/
theorem patch_memory_bounds_amended (current : Snapshot)
    (address data : Nat) :
    (address < VU1_MEMSIZE - 4 → ∃ s2,
      applyPatchMemory current address data = .ok s2 ∧
      (∀ k, k < 4 → s2.memory (address + k) = data / 2 ^ (8 * k) % 256) ∧
      (∀ a, a < address ∨ address + 4 ≤ a → s2.memory a = current.memory a) ∧
      s2.registers = current.registers ∧ s2.program = current.program ∧
      s2.read_addr = current.read_addr ∧ s2.read_size = current.read_size ∧
      s2.write_addr = current.write_addr ∧
      s2.write_size = current.write_size) ∧
    (VU1_MEMSIZE - 4 ≤ address →
      applyPatchMemory current address data = .error .badMemoryAddress) := by
  constructor
  · intro h
    refine ⟨{ current with memory := fun a =>
        if address ≤ a ∧ a < address + 4 then
          data / 2 ^ (8 * (a - address)) % 256
        else current.memory a }, ?_, ?_, ?_, rfl, rfl, rfl, rfl, rfl, rfl⟩
    · unfold applyPatchMemory
      rw [if_pos h]
    · intro k hk
      show (if address ≤ address + k ∧ address + k < address + 4 then
          data / 2 ^ (8 * (address + k - address)) % 256
        else current.memory (address + k)) = data / 2 ^ (8 * k) % 256
      rw [if_pos (by omega)]
      have hsub : address + k - address = k := by omega
      rw [hsub]
    · intro a ha
      show (if address ≤ a ∧ a < address + 4 then
          data / 2 ^ (8 * (a - address)) % 256
        else current.memory a) = current.memory a
      rw [if_neg (by omega)]
  · intro h
    unfold applyPatchMemory
    rw [if_neg (by omega)]

/-- C2, witness: patching value 258 at address 0 writes bytes 2 and 1 into
addresses 0 and 1, leaves address 5 alone, and the boundary address 16380 is
rejected. -/
theorem patch_memory_bounds_amended_witness :
    ∃ s2, applyPatchMemory initSnapshot 0 258 = .ok s2 ∧
      s2.memory 0 = 2 ∧ s2.memory 1 = 1 ∧ s2.memory 5 = 0 ∧
      applyPatchMemory initSnapshot 16380 0 = .error .badMemoryAddress := by
  obtain ⟨s2, h1, h2, h3, -, -, -, -, -, -⟩ :=
    (patch_memory_bounds_amended initSnapshot 0 258).1 (by decide)
  refine ⟨s2, h1, ?_, ?_, ?_,
    (patch_memory_bounds_amended initSnapshot 16380 0).2 (by decide)⟩
  · simpa using h2 0 (by omega)
  · simpa using h2 1 (by omega)
  · have h5 := h3 5 (by omega)
    rw [h5]
    rfl

/-- C3.  A PatchRegister packet with index in 32-63 overwrites only integer
register `index - 32` (with the low 32 bits of the raw value), index 65 only
`q` and index 66 only `p`; in each case every other register, both memory
images and the access records of the current state are untouched.
Spec-modelled: the register-file layout comes from the spec because
`pcsx2defs.h` is not under `src/` (see `applyPatchRegister`). -/
theorem patch_register_narrow_edit (current : Snapshot) (index data : Nat) :
    (32 ≤ index → index < 64 → ∃ s2,
      applyPatchRegister current index data = .ok s2 ∧
      s2.registers.VI (index - 32) = data % 2 ^ 32 ∧
      (∀ j, j ≠ index - 32 → s2.registers.VI j = current.registers.VI j) ∧
      s2.registers.VF = current.registers.VF ∧
      s2.registers.ACC = current.registers.ACC ∧
      s2.registers.q = current.registers.q ∧
      s2.registers.p = current.registers.p ∧
      s2.memory = current.memory ∧ s2.program = current.program ∧
      s2.read_addr = current.read_addr ∧ s2.read_size = current.read_size ∧
      s2.write_addr = current.write_addr ∧
      s2.write_size = current.write_size) ∧
    (index = 65 → ∃ s2,
      applyPatchRegister current index data = .ok s2 ∧
      s2.registers.q = data % 2 ^ 32 ∧
      s2.registers.VF = current.registers.VF ∧
      s2.registers.VI = current.registers.VI ∧
      s2.registers.ACC = current.registers.ACC ∧
      s2.registers.p = current.registers.p ∧
      s2.memory = current.memory ∧ s2.program = current.program ∧
      s2.read_addr = current.read_addr ∧ s2.read_size = current.read_size ∧
      s2.write_addr = current.write_addr ∧
      s2.write_size = current.write_size) ∧
    (index = 66 → ∃ s2,
      applyPatchRegister current index data = .ok s2 ∧
      s2.registers.p = data % 2 ^ 32 ∧
      s2.registers.VF = current.registers.VF ∧
      s2.registers.VI = current.registers.VI ∧
      s2.registers.ACC = current.registers.ACC ∧
      s2.registers.q = current.registers.q ∧
      s2.memory = current.memory ∧ s2.program = current.program ∧
      s2.read_addr = current.read_addr ∧ s2.read_size = current.read_size ∧
      s2.write_addr = current.write_addr ∧
      s2.write_size = current.write_size) := by
  refine ⟨fun h32 h64 => ?_, fun h65 => ?_, fun h66 => ?_⟩
  · unfold applyPatchRegister
    rw [if_neg (by omega), if_pos h64]
    refine ⟨_, rfl, ?_, ?_, rfl, rfl, rfl, rfl, rfl, rfl, rfl, rfl, rfl, rfl⟩
    · show (if index - 32 = index - 32 then data % 2 ^ 32
        else current.registers.VI (index - 32)) = data % 2 ^ 32
      rw [if_pos rfl]
    · intro j hj
      show (if j = index - 32 then data % 2 ^ 32
        else current.registers.VI j) = current.registers.VI j
      rw [if_neg hj]
  · subst h65
    unfold applyPatchRegister
    rw [if_neg (by omega), if_neg (by omega), if_neg (by omega), if_pos rfl]
    exact ⟨_, rfl, rfl, rfl, rfl, rfl, rfl, rfl, rfl, rfl, rfl, rfl, rfl⟩
  · subst h66
    unfold applyPatchRegister
    rw [if_neg (by omega), if_neg (by omega), if_neg (by omega),
      if_neg (by omega), if_pos rfl]
    exact ⟨_, rfl, rfl, rfl, rfl, rfl, rfl, rfl, rfl, rfl, rfl, rfl, rfl⟩

/-- C3, witness: patching register index 33 with value 7 sets integer
register 1 to 7 and leaves `q` alone. -/
theorem patch_register_narrow_edit_witness :
    ∃ s2, applyPatchRegister initSnapshot 33 7 = .ok s2 ∧
      s2.registers.VI 1 = 7 ∧ s2.registers.q = initSnapshot.registers.q := by
  obtain ⟨s2, h1, h2, -, -, -, hq, -, -, -, -, -, -, -⟩ :=
    (patch_register_narrow_edit initSnapshot 33 7).1 (by omega) (by omega)
  exact ⟨s2, h1, by simpa using h2, hq⟩

/-- C9.  Pushing a snapshot first validates the current PC: when
`pc ≥ instruction_memory_size` or `pc % 8 ≠ 0` the push is a fatal error (so
the whole ingestion aborts and nothing is appended); otherwise a full copy of
the current state is appended to the store and the returned current state is
the old one with both access records zeroed and every other field (registers
and both memory images) unchanged — expressed by the record update on
`current` itself. -/
theorem push_validates_and_resets (current : Snapshot)
    (snapshots : List Snapshot) (tbl : Nat → Instruction) :
    (VU1_PROGSIZE ≤ current.registers.VI TPC ∨
        current.registers.VI TPC % INSN_PAIR_SIZE ≠ 0 →
      applyPush current snapshots tbl = .error .badPC) ∧
    (current.registers.VI TPC < VU1_PROGSIZE →
      current.registers.VI TPC % INSN_PAIR_SIZE = 0 →
      ∃ tbl2, applyPush current snapshots tbl =
        .ok (snapshots ++ [current], tbl2,
          { current with
            read_addr := 0
            read_size := 0
            write_addr := 0
            write_size := 0 })) := by
  constructor
  · intro h
    simp only [applyPush]
    rw [if_pos h]
  · intro h1 h2
    have hcond : ¬(VU1_PROGSIZE ≤ current.registers.VI TPC ∨
        current.registers.VI TPC % INSN_PAIR_SIZE ≠ 0) := by
      rintro (h | h)
      · omega
      · exact h h2
    simp only [applyPush]
    rw [if_neg hcond]
    exact ⟨_, rfl⟩

/-- C9, witness: a current state with PC 4 (not a multiple of 8) is rejected,
while the initial state (PC 0) is appended with its access records reset. -/
theorem push_validates_and_resets_witness :
    applyPush (snapAtPC 4) [] initTable = .error .badPC ∧
    ∃ tbl2, applyPush initSnapshot [] initTable =
      .ok ([initSnapshot], tbl2, initSnapshot) := by
  constructor
  · exact (push_validates_and_resets (snapAtPC 4) [] initTable).1
      (Or.inr (by decide))
  · obtain ⟨tbl2, h⟩ :=
      (push_validates_and_resets initSnapshot [] initTable).2
        (by decide) (by decide)
    exact ⟨tbl2, h⟩

/-- Reading the updated slot back gives the updated record. -/
theorem updSlot_self (tbl : Nat → Instruction) (slot : Nat)
    (f : Instruction → Instruction) : updSlot tbl slot f slot = f (tbl slot) := by
  unfold updSlot
  rw [if_pos rfl]

/-- Reading any other slot gives the old record. -/
theorem updSlot_other (tbl : Nat → Instruction) (slot : Nat)
    (f : Instruction → Instruction) (s : Nat) (hs : s ≠ slot) :
    updSlot tbl slot f s = tbl s := by
  unfold updSlot
  rw [if_neg hs]

/-- The bumped key's count grows by one. -/
theorem bumpCount_self (m : Nat → Nat) (key : Nat) :
    bumpCount m key key = m key + 1 := by
  unfold bumpCount
  rw [if_pos rfl]

/-- Every other key's count is unchanged. -/
theorem bumpCount_other (m : Nat → Nat) (key t : Nat) (ht : t ≠ key) :
    bumpCount m key t = m t := by
  unfold bumpCount
  rw [if_neg ht]

/-- A slot update whose function leaves `branch_to_times` alone leaves every
slot's `branch_to_times` alone. -/
theorem updSlot_branch_to_eq (tbl : Nat → Instruction) (slot : Nat)
    (f : Instruction → Instruction)
    (hf : ∀ i, (f i).branch_to_times = i.branch_to_times) (s : Nat) :
    ((updSlot tbl slot f) s).branch_to_times = (tbl s).branch_to_times := by
  by_cases hs : s = slot
  · subst hs
    rw [updSlot_self, hf]
  · rw [updSlot_other _ _ _ _ hs]

/-- A slot update whose function leaves `branch_from_times` alone leaves
every slot's `branch_from_times` alone. -/
theorem updSlot_branch_from_eq (tbl : Nat → Instruction) (slot : Nat)
    (f : Instruction → Instruction)
    (hf : ∀ i, (f i).branch_from_times = i.branch_from_times) (s : Nat) :
    ((updSlot tbl slot f) s).branch_from_times = (tbl s).branch_from_times := by
  by_cases hs : s = slot
  · subst hs
    rw [updSlot_self, hf]
  · rw [updSlot_other _ _ _ _ hs]

/-- Marking a slot executed changes no `branch_to_times`. -/
theorem updSlot_markExec_to (tbl : Nat → Instruction) (slot s : Nat) :
    ((updSlot tbl slot markExecuted) s).branch_to_times =
      (tbl s).branch_to_times :=
  updSlot_branch_to_eq tbl slot markExecuted (fun _ => rfl) s

/-- Marking a slot executed changes no `branch_from_times`. -/
theorem updSlot_markExec_from (tbl : Nat → Instruction) (slot s : Nat) :
    ((updSlot tbl slot markExecuted) s).branch_from_times =
      (tbl s).branch_from_times :=
  updSlot_branch_from_eq tbl slot markExecuted (fun _ => rfl) s

/-- Bumping a slot's execution count changes no `branch_to_times`. -/
theorem updSlot_bumpTimes_to (tbl : Nat → Instruction) (slot s : Nat) :
    ((updSlot tbl slot bumpTimes) s).branch_to_times =
      (tbl s).branch_to_times :=
  updSlot_branch_to_eq tbl slot bumpTimes (fun _ => rfl) s

/-- Bumping a slot's execution count changes no `branch_from_times`. -/
theorem updSlot_bumpTimes_from (tbl : Nat → Instruction) (slot s : Nat) :
    ((updSlot tbl slot bumpTimes) s).branch_from_times =
      (tbl s).branch_from_times :=
  updSlot_branch_from_eq tbl slot bumpTimes (fun _ => rfl) s

/-- Recording a `branch_to` edge changes no `branch_from_times`. -/
theorem updSlot_bumpTo_from (tbl : Nat → Instruction) (slot pc s : Nat) :
    ((updSlot tbl slot (bumpTo pc)) s).branch_from_times =
      (tbl s).branch_from_times :=
  updSlot_branch_from_eq tbl slot (bumpTo pc) (fun _ => rfl) s

/-- Recording a `branch_from` edge changes no `branch_to_times`. -/
theorem updSlot_bumpFrom_to (tbl : Nat → Instruction) (slot last_pc s : Nat) :
    ((updSlot tbl slot (bumpFrom last_pc)) s).branch_to_times =
      (tbl s).branch_to_times :=
  updSlot_branch_to_eq tbl slot (bumpFrom last_pc) (fun _ => rfl) s

/-- Projection of `bumpTo`. -/
theorem bumpTo_to (pc : Nat) (i : Instruction) :
    (bumpTo pc i).branch_to_times = bumpCount i.branch_to_times pc := rfl

/-- Projection of `bumpFrom`. -/
theorem bumpFrom_from (last_pc : Nat) (i : Instruction) :
    (bumpFrom last_pc i).branch_from_times =
      bumpCount i.branch_from_times last_pc := rfl

/-- The element two before the end of `(l ++ [x]) ++ [y]` is `x`: the
"previous snapshot" read by the flow analysis right after a push. -/
theorem getD_penultimate {α : Type} (l : List α) (x y d : α) :
    ((l ++ [x]) ++ [y]).getD (((l ++ [x]) ++ [y]).length - 2) d = x := by
  have hlen : ((l ++ [x]) ++ [y]).length - 2 = l.length := by simp
  rw [hlen, List.getD_eq_getElem?_getD,
    List.getElem?_append_left (by simp : l.length < (l ++ [x]).length),
    List.getElem?_append_right (Nat.le_refl l.length)]
  simp

/-- C7.  When a push succeeds: with an empty store (very first snapshot) no
`branch_to_times` or `branch_from_times` entry changes; with a non-empty
store whose last snapshot is `prev`, a non-fall-through pair
(`prev.pc + 8 ≠ current.pc`) increments exactly
`slot[prev.pc / 8].branch_to_times[current.pc]` and
`slot[current.pc / 8].branch_from_times[prev.pc]` by one and changes no other
slot or key of either map, while a fall-through pair changes neither map
anywhere. -/
theorem push_branch_bookkeeping (current : Snapshot) (store : List Snapshot)
    (tbl : Nat → Instruction) (resSnaps : List Snapshot)
    (resTbl : Nat → Instruction) (resCur : Snapshot)
    (h : applyPush current store tbl = .ok (resSnaps, resTbl, resCur)) :
    (store = [] →
      ∀ s t, (resTbl s).branch_to_times t = (tbl s).branch_to_times t ∧
        (resTbl s).branch_from_times t = (tbl s).branch_from_times t) ∧
    (∀ init prev, store = init ++ [prev] →
      (prev.registers.VI TPC + INSN_PAIR_SIZE ≠ current.registers.VI TPC →
        (resTbl (prev.registers.VI TPC / INSN_PAIR_SIZE)).branch_to_times
            (current.registers.VI TPC) =
          (tbl (prev.registers.VI TPC / INSN_PAIR_SIZE)).branch_to_times
            (current.registers.VI TPC) + 1 ∧
        (resTbl (current.registers.VI TPC / INSN_PAIR_SIZE)).branch_from_times
            (prev.registers.VI TPC) =
          (tbl (current.registers.VI TPC /
            INSN_PAIR_SIZE)).branch_from_times (prev.registers.VI TPC) + 1 ∧
        (∀ s t, ¬(s = prev.registers.VI TPC / INSN_PAIR_SIZE ∧
            t = current.registers.VI TPC) →
          (resTbl s).branch_to_times t = (tbl s).branch_to_times t) ∧
        (∀ s t, ¬(s = current.registers.VI TPC / INSN_PAIR_SIZE ∧
            t = prev.registers.VI TPC) →
          (resTbl s).branch_from_times t = (tbl s).branch_from_times t)) ∧
      (prev.registers.VI TPC + INSN_PAIR_SIZE = current.registers.VI TPC →
        ∀ s t, (resTbl s).branch_to_times t = (tbl s).branch_to_times t ∧
          (resTbl s).branch_from_times t = (tbl s).branch_from_times t)) := by
  simp only [applyPush] at h
  by_cases hpc : VU1_PROGSIZE ≤ current.registers.VI TPC ∨
      current.registers.VI TPC % INSN_PAIR_SIZE ≠ 0
  · rw [if_pos hpc] at h
    simp at h
  · rw [if_neg hpc] at h
    simp only [Except.ok.injEq, Prod.mk.injEq] at h
    obtain ⟨h1, h2, h3⟩ := h
    subst h2
    refine ⟨?_, ?_⟩
    · intro hstore s t
      subst hstore
      have hflow : flowUpdate (current.registers.VI TPC) ([] ++ [current])
          (updSlot tbl (current.registers.VI TPC / INSN_PAIR_SIZE)
            markExecuted) =
          updSlot tbl (current.registers.VI TPC / INSN_PAIR_SIZE)
            markExecuted := by
        unfold flowUpdate
        rw [if_neg (by simp)]
      rw [hflow]
      exact ⟨by rw [updSlot_bumpTimes_to, updSlot_markExec_to],
        by rw [updSlot_bumpTimes_from, updSlot_markExec_from]⟩
    · intro init prev hstore
      subst hstore
      have hlen : 2 ≤ ((init ++ [prev]) ++ [current]).length := by simp
      refine ⟨fun hbr => ?_, fun hft => ?_⟩
      · have hflow : flowUpdate (current.registers.VI TPC)
            ((init ++ [prev]) ++ [current])
            (updSlot tbl (current.registers.VI TPC / INSN_PAIR_SIZE)
              markExecuted) =
            updSlot
              (updSlot
                (updSlot tbl (current.registers.VI TPC / INSN_PAIR_SIZE)
                  markExecuted)
                (prev.registers.VI TPC / INSN_PAIR_SIZE)
                (bumpTo (current.registers.VI TPC)))
              (current.registers.VI TPC / INSN_PAIR_SIZE)
              (bumpFrom (prev.registers.VI TPC)) := by
          unfold flowUpdate
          rw [getD_penultimate, if_pos hlen, if_pos hbr]
        rw [hflow]
        refine ⟨?_, ?_, ?_, ?_⟩
        · rw [updSlot_bumpTimes_to, updSlot_bumpFrom_to, updSlot_self,
            bumpTo_to, bumpCount_self, updSlot_markExec_to]
        · rw [updSlot_bumpTimes_from, updSlot_self, bumpFrom_from,
            bumpCount_self, updSlot_bumpTo_from, updSlot_markExec_from]
        · intro s t hst
          rw [updSlot_bumpTimes_to, updSlot_bumpFrom_to]
          by_cases hs : s = prev.registers.VI TPC / INSN_PAIR_SIZE
          · subst hs
            rw [updSlot_self, bumpTo_to,
              bumpCount_other _ _ _ (fun ht => hst ⟨rfl, ht⟩),
              updSlot_markExec_to]
          · rw [updSlot_other _ _ _ _ hs, updSlot_markExec_to]
        · intro s t hst
          rw [updSlot_bumpTimes_from]
          by_cases hs : s = current.registers.VI TPC / INSN_PAIR_SIZE
          · subst hs
            rw [updSlot_self, bumpFrom_from,
              bumpCount_other _ _ _ (fun ht => hst ⟨rfl, ht⟩),
              updSlot_bumpTo_from, updSlot_markExec_from]
          · rw [updSlot_other _ _ _ _ hs, updSlot_bumpTo_from,
              updSlot_markExec_from]
      · have hflow : flowUpdate (current.registers.VI TPC)
            ((init ++ [prev]) ++ [current])
            (updSlot tbl (current.registers.VI TPC / INSN_PAIR_SIZE)
              markExecuted) =
            updSlot tbl (current.registers.VI TPC / INSN_PAIR_SIZE)
              markExecuted := by
          unfold flowUpdate
          rw [getD_penultimate, if_pos hlen, if_neg (not_not_intro hft)]
        rw [hflow]
        intro s t
        exact ⟨by rw [updSlot_bumpTimes_to, updSlot_markExec_to],
          by rw [updSlot_bumpTimes_from, updSlot_markExec_from]⟩

/-- C7, witness: pushing a snapshot at PC 16 after one at PC 0 (not a
fall-through, since 0 + 8 ≠ 16) bumps `branch_to_times[16]` of slot 0 by
one. -/
theorem push_branch_bookkeeping_witness :
    ∃ resTbl, applyPush (snapAtPC 16) [initSnapshot] initTable =
      .ok ([initSnapshot, snapAtPC 16], resTbl, snapAtPC 16) ∧
      (resTbl 0).branch_to_times 16 =
        (initTable 0).branch_to_times 16 + 1 := by
  refine ⟨_, rfl, ?_⟩
  have hmain := (push_branch_bookkeeping (snapAtPC 16) [initSnapshot]
    initTable _ _ _ rfl).2 [] initSnapshot rfl
  exact (hmain.1 (by decide)).1

/-- A successful push appends exactly the current state to the store. -/
theorem applyPush_ok_snapshots (current : Snapshot)
    (snapshots : List Snapshot) (tbl : Nat → Instruction)
    (resSnaps : List Snapshot) (resTbl : Nat → Instruction)
    (resCur : Snapshot)
    (h : applyPush current snapshots tbl = .ok (resSnaps, resTbl, resCur)) :
    resSnaps = snapshots ++ [current] := by
  simp only [applyPush] at h
  by_cases hpc : VU1_PROGSIZE ≤ current.registers.VI TPC ∨
      current.registers.VI TPC % INSN_PAIR_SIZE ≠ 0
  · rw [if_pos hpc] at h
    simp at h
  · rw [if_neg hpc] at h
    simp only [Except.ok.injEq, Prod.mk.injEq] at h
    exact h.1.symm

/-- Every successful run of the packet loop grows the store by exactly the
number of PushSnapshot discriminants it consumes: each 'P' packet appends
one snapshot and every other packet type leaves the store alone. -/
theorem parseLoop_count : ∀ (n : Nat) (input : List Nat), input.length ≤ n →
    ∀ (version : Nat) (current : Snapshot) (snapshots : List Snapshot)
      (tbl : Nat → Instruction) (resSnaps : List Snapshot)
      (resTbl : Nat → Instruction),
      parseLoop version input current snapshots tbl =
        .ok (resSnaps, resTbl) →
      ∃ k, countPush version input = some k ∧
        resSnaps.length = snapshots.length + k := by
  intro n
  induction n with
  | zero =>
    intro input hlen version current snapshots tbl resSnaps resTbl h
    have hnil : input = [] := List.length_eq_zero.mp (by omega)
    subst hnil
    simp only [parseLoop, Except.ok.injEq, Prod.mk.injEq] at h
    exact ⟨0, by simp [countPush], by simp [← h.1]⟩
  | succ n ih =>
    intro input hlen version current snapshots tbl resSnaps resTbl h
    cases input with
    | nil =>
      simp only [parseLoop, Except.ok.injEq, Prod.mk.injEq] at h
      exact ⟨0, by simp [countPush], by simp [← h.1]⟩
    | cons b rest =>
      have hrest : rest.length ≤ n := by
        simp only [List.length_cons] at hlen
        omega
      simp only [parseLoop] at h
      by_cases hb80 : b = 80
      · rw [if_pos hb80] at h
        cases happ : applyPush current snapshots tbl with
        | error e =>
          rw [happ] at h
          simp at h
        | ok val =>
          obtain ⟨s2, t2, c2⟩ := val
          rw [happ] at h
          obtain ⟨k, hk1, hk2⟩ :=
            ih rest hrest version c2 s2 t2 resSnaps resTbl h
          have hs2 := applyPush_ok_snapshots _ _ _ _ _ _ happ
          refine ⟨k + 1, ?_, ?_⟩
          · simp only [countPush]
            rw [if_pos hb80, hk1]
            rfl
          · rw [hk2, hs2]
            simp only [List.length_append, List.length_cons,
              List.length_nil]
            omega
      · rw [if_neg hb80] at h
        by_cases hb82 : b = 82
        · rw [if_pos hb82] at h
          by_cases hsz : regsPayloadSize version ≤ rest.length
          · rw [if_pos hsz] at h
            obtain ⟨k, hk1, hk2⟩ := ih (rest.drop (regsPayloadSize version))
              (by rw [List.length_drop]; omega) version _ snapshots tbl
              resSnaps resTbl h
            refine ⟨k, ?_, hk2⟩
            simp only [countPush]
            rw [if_neg hb80, if_pos hb82, if_pos hsz, hk1]
          · rw [if_neg hsz] at h
            simp at h
        · rw [if_neg hb82] at h
          by_cases hb77 : b = 77
          · rw [if_pos hb77] at h
            by_cases hsz : VU1_MEMSIZE ≤ rest.length
            · rw [if_pos hsz] at h
              obtain ⟨k, hk1, hk2⟩ := ih (rest.drop VU1_MEMSIZE)
                (by rw [List.length_drop]; omega) version _ snapshots tbl
                resSnaps resTbl h
              refine ⟨k, ?_, hk2⟩
              simp only [countPush]
              rw [if_neg hb80, if_neg hb82, if_pos hb77, if_pos hsz, hk1]
            · rw [if_neg hsz] at h
              simp at h
          · rw [if_neg hb77] at h
            by_cases hb73 : b = 73
            · rw [if_pos hb73] at h
              by_cases hsz : VU1_PROGSIZE ≤ rest.length
              · rw [if_pos hsz] at h
                obtain ⟨k, hk1, hk2⟩ := ih (rest.drop VU1_PROGSIZE)
                  (by rw [List.length_drop]; omega) version _ snapshots tbl
                  resSnaps resTbl h
                refine ⟨k, ?_, hk2⟩
                simp only [countPush]
                rw [if_neg hb80, if_neg hb82, if_neg hb77, if_pos hb73,
                  if_pos hsz, hk1]
              · rw [if_neg hsz] at h
                simp at h
            · rw [if_neg hb73] at h
              by_cases hb76 : b = 76
              · rw [if_pos hb76] at h
                by_cases hsz : 8 ≤ rest.length
                · rw [if_pos hsz] at h
                  obtain ⟨k, hk1, hk2⟩ := ih (rest.drop 8)
                    (by rw [List.length_drop]; omega) version _ snapshots
                    tbl resSnaps resTbl h
                  refine ⟨k, ?_, hk2⟩
                  simp only [countPush]
                  rw [if_neg hb80, if_neg hb82, if_neg hb77, if_neg hb73,
                    if_pos hb76, if_pos hsz, hk1]
                · rw [if_neg hsz] at h
                  simp at h
              · rw [if_neg hb76] at h
                by_cases hb83 : b = 83
                · rw [if_pos hb83] at h
                  by_cases hsz : 8 ≤ rest.length
                  · rw [if_pos hsz] at h
                    obtain ⟨k, hk1, hk2⟩ := ih (rest.drop 8)
                      (by rw [List.length_drop]; omega) version _ snapshots
                      tbl resSnaps resTbl h
                    refine ⟨k, ?_, hk2⟩
                    simp only [countPush]
                    rw [if_neg hb80, if_neg hb82, if_neg hb77, if_neg hb73,
                      if_neg hb76, if_pos hb83, if_pos hsz, hk1]
                  · rw [if_neg hsz] at h
                    simp at h
                · rw [if_neg hb83] at h
                  by_cases hb114 : b = 114
                  · rw [if_pos hb114] at h
                    by_cases hsz : 17 ≤ rest.length
                    · rw [if_pos hsz] at h
                      cases hpr : applyPatchRegister current (byteAt rest 0)
                        (leBytes ((rest.take 17).drop 1)) with
                      | error e =>
                        rw [hpr] at h
                        simp at h
                      | ok c2 =>
                        rw [hpr] at h
                        obtain ⟨k, hk1, hk2⟩ := ih (rest.drop 17)
                          (by rw [List.length_drop]; omega) version c2
                          snapshots tbl resSnaps resTbl h
                        refine ⟨k, ?_, hk2⟩
                        simp only [countPush]
                        rw [if_neg hb80, if_neg hb82, if_neg hb77,
                          if_neg hb73, if_neg hb76, if_neg hb83,
                          if_pos hb114, if_pos hsz, hk1]
                    · rw [if_neg hsz] at h
                      simp at h
                  · rw [if_neg hb114] at h
                    by_cases hb109 : b = 109
                    · rw [if_pos hb109] at h
                      by_cases hsz : 6 ≤ rest.length
                      · rw [if_pos hsz] at h
                        cases hpm : applyPatchMemory current
                          (byteAt rest 0 + 256 * byteAt rest 1)
                          (leWordAt (rest.take 6) 2) with
                        | error e =>
                          rw [hpm] at h
                          simp at h
                        | ok c2 =>
                          rw [hpm] at h
                          obtain ⟨k, hk1, hk2⟩ := ih (rest.drop 6)
                            (by rw [List.length_drop]; omega) version c2
                            snapshots tbl resSnaps resTbl h
                          refine ⟨k, ?_, hk2⟩
                          simp only [countPush]
                          rw [if_neg hb80, if_neg hb82, if_neg hb77,
                            if_neg hb73, if_neg hb76, if_neg hb83,
                            if_neg hb114, if_pos hb109, if_pos hsz, hk1]
                      · rw [if_neg hsz] at h
                        simp at h
                    · rw [if_neg hb109] at h
                      simp at h

/-- C6.  Whenever ingestion of a whole trace stream succeeds, the number of
snapshots in the store equals the number of PushSnapshot ('P') packets of
the stream: each 'P' appends exactly one copy of the current state and no
other packet type appends or removes snapshots. -/
theorem snapshot_count_eq_push_count (input : List Nat)
    (resSnaps : List Snapshot) (resTbl : Nat → Instruction)
    (h : parse_trace input = .ok (resSnaps, resTbl)) :
    pushCountTrace input = some resSnaps.length := by
  unfold parse_trace at h
  unfold pushCountTrace
  by_cases h4 : 4 ≤ input.length
  · rw [if_pos h4] at h ⊢
    by_cases hmagic : input.take 4 = vutrMagic
    · rw [if_pos hmagic] at h ⊢
      by_cases h8 : 4 ≤ (input.drop 4).length
      · rw [if_pos h8] at h ⊢
        by_cases hv : 3 < leBytes ((input.drop 4).take 4)
        · rw [if_pos hv] at h
          simp at h
        · rw [if_neg hv] at h ⊢
          obtain ⟨k, hk1, hk2⟩ := parseLoop_count (input.drop 8).length
            (input.drop 8) (Nat.le_refl _) _ _ _ _ _ _ h
          rw [hk1, hk2]
          simp
      · rw [if_neg h8] at h
        simp at h
    · rw [if_neg hmagic] at h ⊢
      obtain ⟨k, hk1, hk2⟩ := parseLoop_count input.length input
        (Nat.le_refl _) 1 initSnapshot [] initTable resSnaps resTbl h
      rw [hk1, hk2]
      simp
  · rw [if_neg h4] at h
    simp at h

/-- C6, witness: a trace with the `"VUTR"` magic, version 3 and no packets
ingests into an empty store, matching its zero PushSnapshot packets. -/
theorem snapshot_count_eq_push_count_witness :
    pushCountTrace [86, 85, 84, 82, 3, 0, 0, 0] = some 0 := by
  have h : parse_trace [86, 85, 84, 82, 3, 0, 0, 0] =
      .ok ([], initTable) := by
    unfold parse_trace
    rw [if_pos (by decide), if_pos (by decide), if_pos (by decide),
      if_neg (by decide)]
    simp [parseLoop]
  have hc := snapshot_count_eq_push_count [86, 85, 84, 82, 3, 0, 0, 0] _ _ h
  simpa using hc

/-- C5, counterexample.  The empty stream and the single-byte stream `['P']`
are fatal unexpected-end-of-file errors (the header read of 4 magic bytes
fails), even though `['P']` is a well-formed version-1 packet sequence whose
packet-data parse succeeds with one snapshot. -/
theorem headerless_short_stream_cex :
    parse_trace [] = .error .eof ∧
    parse_trace [80] = .error .eof ∧
    ∃ rt, parseLoop 1 [80] initSnapshot [] initTable =
      .ok ([initSnapshot], rt) := by
  refine ⟨by simp [parse_trace], by simp [parse_trace], ?_⟩
  simp [parseLoop, applyPush, flowUpdate, updSlot, markExecuted,
    bumpTimes, initSnapshot, initRegs, TPC, VU1_PROGSIZE, INSN_PAIR_SIZE]

/-- C5, amended.  A stream of at least 4 bytes that does not begin with the
magic tag `"VUTR"` is parsed entirely — including its first four bytes — as
version-1 packet data; but a stream shorter than 4 bytes is a fatal
unexpected-end-of-file error regardless of its content, because the magic
read happens before the headerless fallback. -/
theorem headerless_stream_amended (input : List Nat) :
    (input.length < 4 → parse_trace input = .error .eof) ∧
    (4 ≤ input.length → input.take 4 ≠ vutrMagic →
      parse_trace input = parseLoop 1 input initSnapshot [] initTable) := by
  constructor
  · intro h
    unfold parse_trace
    rw [if_neg (by omega)]
  · intro h4 hm
    unfold parse_trace
    rw [if_pos h4, if_neg hm]

/-- C5, witness: a 3-byte stream is rejected with the EOF error, and a
4-byte headerless stream is handed whole to the version-1 packet loop. -/
theorem headerless_stream_amended_witness :
    parse_trace [1, 2, 3] = .error .eof ∧
    parse_trace [80, 80, 80, 81] =
      parseLoop 1 [80, 80, 80, 81] initSnapshot [] initTable :=
  ⟨(headerless_stream_amended [1, 2, 3]).1 (by decide),
   (headerless_stream_amended [80, 80, 80, 81]).2 (by decide) (by decide)⟩

end VuTrace
